import Mathlib

/-!
Verification of the mimic-capture board solver (`src/main.rs`).

The Rust program is shallowly embedded:

* the `[[bool; 7]; 7]` cell bitmap becomes a 49-bit `Nat` bitmask, where the
  bit `(row-1)*7 + (col-1)` holds the liveness of the 1-indexed cell
  `(row, col)` (exactly the array layout of the source, with `Nat.testBit`
  playing the role of array indexing);
* the `HashMap<(u8,u8), Cell>` index of live outer cells becomes the list of
  its keys in insertion order (the stored value always equals the key);
* the `HashMap` visited/queued sets of the breadth-first search become
  bitmasks over the same cell indexing, together with the visited list in
  insertion order (all cells entering these maps are valid grid cells, on
  which the indexing is injective, so bitmask membership coincides with map
  membership);
* machine integers become `Nat`/`Int`; all coordinate arithmetic in the
  program happens at coordinates `≥ 1`, where truncated `Nat` subtraction
  agrees with `u8` arithmetic;
* the two unbounded loops (`remove_redundant_blocks` and the BFS of
  `get_reachable_cells`) are given explicit fuel; the fuel bounds are
  justified in comments at the definitions.
-/

namespace MimicCapture

set_option maxRecDepth 10000000
set_option maxHeartbeats 4000000

/-- The `ROWS` constant of the program. -/
def ROWS : Nat := 7

/-- The `COLS` constant of the program. -/
def COLS : Nat := 7

/-- Row of the fixed pivot cell. -/
def MIMIC_INITIAL_ROW : Nat := 4

/-- Column of the fixed pivot cell. -/
def MIMIC_INITIAL_COL : Nat := 4

/-- Removal budget of the program. -/
def MAX_BLOCKS_TO_REMOVE : Nat := 10

/-- The `is_valid_location` from the source: both coordinates in `1..=7`. -/
def is_valid_location (loc : Nat × Nat) : Bool :=
  0 < loc.1 && loc.1 < 8 && 0 < loc.2 && loc.2 < 8

/-- The `is_outer` from the source: border-ring membership. -/
def is_outer (row col : Nat) : Bool :=
  row % 6 == 1 || col % 6 == 1

/-- A grid coordinate, 1-indexed, as in the source `Cell` struct. -/
structure Cell where
  row : Nat
  col : Nat
deriving DecidableEq, Repr

/-- The offset computation inside the source's `get_neighbors`: six hex
offsets chosen by column parity, filtered through `is_valid_location`. -/
def get_neighbors_offsets (row col : Nat) : List Cell :=
  let locations : List (Nat × Nat) :=
    if col % 2 == 0 then
      [(row - 1, col), (row, col - 1), (row, col + 1),
       (row + 1, col - 1), (row + 1, col + 1), (row + 1, col)]
    else
      [(row - 1, col), (row - 1, col - 1), (row - 1, col + 1),
       (row, col - 1), (row, col + 1), (row + 1, col)]
  (locations.filter is_valid_location).map (fun p => ⟨p.1, p.2⟩)

/-- The `get_neighbors` from the source.  The source memoizes the offset
computation with `#[cached]`; the memo table over the 49 grid keys is
embedded literally, with the offset computation `get_neighbors_offsets` as
fallback outside the grid (`get_neighbors_memo_correct` below proves the
table equal to the offset computation on every key). -/
def get_neighbors (row col : Nat) : List Cell :=
  if row == 1 then
    if col == 1 then [(⟨1, 2⟩ : Cell), (⟨2, 1⟩ : Cell)]
    else if col == 2 then [(⟨1, 1⟩ : Cell), (⟨1, 3⟩ : Cell), (⟨2, 1⟩ : Cell), (⟨2, 3⟩ : Cell), (⟨2, 2⟩ : Cell)]
    else if col == 3 then [(⟨1, 2⟩ : Cell), (⟨1, 4⟩ : Cell), (⟨2, 3⟩ : Cell)]
    else if col == 4 then [(⟨1, 3⟩ : Cell), (⟨1, 5⟩ : Cell), (⟨2, 3⟩ : Cell), (⟨2, 5⟩ : Cell), (⟨2, 4⟩ : Cell)]
    else if col == 5 then [(⟨1, 4⟩ : Cell), (⟨1, 6⟩ : Cell), (⟨2, 5⟩ : Cell)]
    else if col == 6 then [(⟨1, 5⟩ : Cell), (⟨1, 7⟩ : Cell), (⟨2, 5⟩ : Cell), (⟨2, 7⟩ : Cell), (⟨2, 6⟩ : Cell)]
    else if col == 7 then [(⟨1, 6⟩ : Cell), (⟨2, 7⟩ : Cell)]
    else get_neighbors_offsets row col
  else if row == 2 then
    if col == 1 then [(⟨1, 1⟩ : Cell), (⟨1, 2⟩ : Cell), (⟨2, 2⟩ : Cell), (⟨3, 1⟩ : Cell)]
    else if col == 2 then [(⟨1, 2⟩ : Cell), (⟨2, 1⟩ : Cell), (⟨2, 3⟩ : Cell), (⟨3, 1⟩ : Cell), (⟨3, 3⟩ : Cell), (⟨3, 2⟩ : Cell)]
    else if col == 3 then [(⟨1, 3⟩ : Cell), (⟨1, 2⟩ : Cell), (⟨1, 4⟩ : Cell), (⟨2, 2⟩ : Cell), (⟨2, 4⟩ : Cell), (⟨3, 3⟩ : Cell)]
    else if col == 4 then [(⟨1, 4⟩ : Cell), (⟨2, 3⟩ : Cell), (⟨2, 5⟩ : Cell), (⟨3, 3⟩ : Cell), (⟨3, 5⟩ : Cell), (⟨3, 4⟩ : Cell)]
    else if col == 5 then [(⟨1, 5⟩ : Cell), (⟨1, 4⟩ : Cell), (⟨1, 6⟩ : Cell), (⟨2, 4⟩ : Cell), (⟨2, 6⟩ : Cell), (⟨3, 5⟩ : Cell)]
    else if col == 6 then [(⟨1, 6⟩ : Cell), (⟨2, 5⟩ : Cell), (⟨2, 7⟩ : Cell), (⟨3, 5⟩ : Cell), (⟨3, 7⟩ : Cell), (⟨3, 6⟩ : Cell)]
    else if col == 7 then [(⟨1, 7⟩ : Cell), (⟨1, 6⟩ : Cell), (⟨2, 6⟩ : Cell), (⟨3, 7⟩ : Cell)]
    else get_neighbors_offsets row col
  else if row == 3 then
    if col == 1 then [(⟨2, 1⟩ : Cell), (⟨2, 2⟩ : Cell), (⟨3, 2⟩ : Cell), (⟨4, 1⟩ : Cell)]
    else if col == 2 then [(⟨2, 2⟩ : Cell), (⟨3, 1⟩ : Cell), (⟨3, 3⟩ : Cell), (⟨4, 1⟩ : Cell), (⟨4, 3⟩ : Cell), (⟨4, 2⟩ : Cell)]
    else if col == 3 then [(⟨2, 3⟩ : Cell), (⟨2, 2⟩ : Cell), (⟨2, 4⟩ : Cell), (⟨3, 2⟩ : Cell), (⟨3, 4⟩ : Cell), (⟨4, 3⟩ : Cell)]
    else if col == 4 then [(⟨2, 4⟩ : Cell), (⟨3, 3⟩ : Cell), (⟨3, 5⟩ : Cell), (⟨4, 3⟩ : Cell), (⟨4, 5⟩ : Cell), (⟨4, 4⟩ : Cell)]
    else if col == 5 then [(⟨2, 5⟩ : Cell), (⟨2, 4⟩ : Cell), (⟨2, 6⟩ : Cell), (⟨3, 4⟩ : Cell), (⟨3, 6⟩ : Cell), (⟨4, 5⟩ : Cell)]
    else if col == 6 then [(⟨2, 6⟩ : Cell), (⟨3, 5⟩ : Cell), (⟨3, 7⟩ : Cell), (⟨4, 5⟩ : Cell), (⟨4, 7⟩ : Cell), (⟨4, 6⟩ : Cell)]
    else if col == 7 then [(⟨2, 7⟩ : Cell), (⟨2, 6⟩ : Cell), (⟨3, 6⟩ : Cell), (⟨4, 7⟩ : Cell)]
    else get_neighbors_offsets row col
  else if row == 4 then
    if col == 1 then [(⟨3, 1⟩ : Cell), (⟨3, 2⟩ : Cell), (⟨4, 2⟩ : Cell), (⟨5, 1⟩ : Cell)]
    else if col == 2 then [(⟨3, 2⟩ : Cell), (⟨4, 1⟩ : Cell), (⟨4, 3⟩ : Cell), (⟨5, 1⟩ : Cell), (⟨5, 3⟩ : Cell), (⟨5, 2⟩ : Cell)]
    else if col == 3 then [(⟨3, 3⟩ : Cell), (⟨3, 2⟩ : Cell), (⟨3, 4⟩ : Cell), (⟨4, 2⟩ : Cell), (⟨4, 4⟩ : Cell), (⟨5, 3⟩ : Cell)]
    else if col == 4 then [(⟨3, 4⟩ : Cell), (⟨4, 3⟩ : Cell), (⟨4, 5⟩ : Cell), (⟨5, 3⟩ : Cell), (⟨5, 5⟩ : Cell), (⟨5, 4⟩ : Cell)]
    else if col == 5 then [(⟨3, 5⟩ : Cell), (⟨3, 4⟩ : Cell), (⟨3, 6⟩ : Cell), (⟨4, 4⟩ : Cell), (⟨4, 6⟩ : Cell), (⟨5, 5⟩ : Cell)]
    else if col == 6 then [(⟨3, 6⟩ : Cell), (⟨4, 5⟩ : Cell), (⟨4, 7⟩ : Cell), (⟨5, 5⟩ : Cell), (⟨5, 7⟩ : Cell), (⟨5, 6⟩ : Cell)]
    else if col == 7 then [(⟨3, 7⟩ : Cell), (⟨3, 6⟩ : Cell), (⟨4, 6⟩ : Cell), (⟨5, 7⟩ : Cell)]
    else get_neighbors_offsets row col
  else if row == 5 then
    if col == 1 then [(⟨4, 1⟩ : Cell), (⟨4, 2⟩ : Cell), (⟨5, 2⟩ : Cell), (⟨6, 1⟩ : Cell)]
    else if col == 2 then [(⟨4, 2⟩ : Cell), (⟨5, 1⟩ : Cell), (⟨5, 3⟩ : Cell), (⟨6, 1⟩ : Cell), (⟨6, 3⟩ : Cell), (⟨6, 2⟩ : Cell)]
    else if col == 3 then [(⟨4, 3⟩ : Cell), (⟨4, 2⟩ : Cell), (⟨4, 4⟩ : Cell), (⟨5, 2⟩ : Cell), (⟨5, 4⟩ : Cell), (⟨6, 3⟩ : Cell)]
    else if col == 4 then [(⟨4, 4⟩ : Cell), (⟨5, 3⟩ : Cell), (⟨5, 5⟩ : Cell), (⟨6, 3⟩ : Cell), (⟨6, 5⟩ : Cell), (⟨6, 4⟩ : Cell)]
    else if col == 5 then [(⟨4, 5⟩ : Cell), (⟨4, 4⟩ : Cell), (⟨4, 6⟩ : Cell), (⟨5, 4⟩ : Cell), (⟨5, 6⟩ : Cell), (⟨6, 5⟩ : Cell)]
    else if col == 6 then [(⟨4, 6⟩ : Cell), (⟨5, 5⟩ : Cell), (⟨5, 7⟩ : Cell), (⟨6, 5⟩ : Cell), (⟨6, 7⟩ : Cell), (⟨6, 6⟩ : Cell)]
    else if col == 7 then [(⟨4, 7⟩ : Cell), (⟨4, 6⟩ : Cell), (⟨5, 6⟩ : Cell), (⟨6, 7⟩ : Cell)]
    else get_neighbors_offsets row col
  else if row == 6 then
    if col == 1 then [(⟨5, 1⟩ : Cell), (⟨5, 2⟩ : Cell), (⟨6, 2⟩ : Cell), (⟨7, 1⟩ : Cell)]
    else if col == 2 then [(⟨5, 2⟩ : Cell), (⟨6, 1⟩ : Cell), (⟨6, 3⟩ : Cell), (⟨7, 1⟩ : Cell), (⟨7, 3⟩ : Cell), (⟨7, 2⟩ : Cell)]
    else if col == 3 then [(⟨5, 3⟩ : Cell), (⟨5, 2⟩ : Cell), (⟨5, 4⟩ : Cell), (⟨6, 2⟩ : Cell), (⟨6, 4⟩ : Cell), (⟨7, 3⟩ : Cell)]
    else if col == 4 then [(⟨5, 4⟩ : Cell), (⟨6, 3⟩ : Cell), (⟨6, 5⟩ : Cell), (⟨7, 3⟩ : Cell), (⟨7, 5⟩ : Cell), (⟨7, 4⟩ : Cell)]
    else if col == 5 then [(⟨5, 5⟩ : Cell), (⟨5, 4⟩ : Cell), (⟨5, 6⟩ : Cell), (⟨6, 4⟩ : Cell), (⟨6, 6⟩ : Cell), (⟨7, 5⟩ : Cell)]
    else if col == 6 then [(⟨5, 6⟩ : Cell), (⟨6, 5⟩ : Cell), (⟨6, 7⟩ : Cell), (⟨7, 5⟩ : Cell), (⟨7, 7⟩ : Cell), (⟨7, 6⟩ : Cell)]
    else if col == 7 then [(⟨5, 7⟩ : Cell), (⟨5, 6⟩ : Cell), (⟨6, 6⟩ : Cell), (⟨7, 7⟩ : Cell)]
    else get_neighbors_offsets row col
  else if row == 7 then
    if col == 1 then [(⟨6, 1⟩ : Cell), (⟨6, 2⟩ : Cell), (⟨7, 2⟩ : Cell)]
    else if col == 2 then [(⟨6, 2⟩ : Cell), (⟨7, 1⟩ : Cell), (⟨7, 3⟩ : Cell)]
    else if col == 3 then [(⟨6, 3⟩ : Cell), (⟨6, 2⟩ : Cell), (⟨6, 4⟩ : Cell), (⟨7, 2⟩ : Cell), (⟨7, 4⟩ : Cell)]
    else if col == 4 then [(⟨6, 4⟩ : Cell), (⟨7, 3⟩ : Cell), (⟨7, 5⟩ : Cell)]
    else if col == 5 then [(⟨6, 5⟩ : Cell), (⟨6, 4⟩ : Cell), (⟨6, 6⟩ : Cell), (⟨7, 4⟩ : Cell), (⟨7, 6⟩ : Cell)]
    else if col == 6 then [(⟨6, 6⟩ : Cell), (⟨7, 5⟩ : Cell), (⟨7, 7⟩ : Cell)]
    else if col == 7 then [(⟨6, 7⟩ : Cell), (⟨6, 6⟩ : Cell), (⟨7, 6⟩ : Cell)]
    else get_neighbors_offsets row col
  else get_neighbors_offsets row col

/-- The `Cell::is_outer`. -/
def Cell.is_outer (c : Cell) : Bool := MimicCapture.is_outer c.row c.col

/-- The `Cell::get_neighbors`. -/
def Cell.get_neighbors (c : Cell) : List Cell := MimicCapture.get_neighbors c.row c.col

/-- Bit position of the 1-indexed cell `(row, col)` in the bitmap: the
source's array subscript `cells[row-1][col-1]` linearised row-major. -/
def cellIdx (row col : Nat) : Nat := (row - 1) * 7 + (col - 1)

/-- Bit position of a `Cell`. -/
def Cell.bit (c : Cell) : Nat := cellIdx c.row c.col

/-- The `Board` struct: the live/dead bitmap (as a 49-bit mask) plus the index
of live outer cells. -/
structure Board where
  cells : Nat
  map_live_outer_cells : List Cell
deriving DecidableEq, Repr

/-- The `Board::new`: all 49 cells live, index empty (the source relies on a
separate `gen_map_live_outer_cells` call to populate it). -/
def Board.new : Board :=
  { cells := 2 ^ 49 - 1, map_live_outer_cells := [] }

/-- The `Board::value_at`: bitmap lookup at 1-indexed coordinates. -/
def Board.value_at (b : Board) (row col : Nat) : Bool :=
  b.cells.testBit (cellIdx row col)

/-- The `Board::value_at_cell`. -/
def Board.value_at_cell (b : Board) (c : Cell) : Bool := b.value_at c.row c.col

/-- The `Board::drop_cell`: clear the bitmap bit (an xor conditional on the bit
being set is exactly `cells[row-1][col-1] = false`); if the coordinate is
outer, remove it from the live-outer index in the same operation. -/
def Board.drop_cell (b : Board) (row col : Nat) : Board :=
  { cells :=
      if b.cells.testBit (cellIdx row col) then b.cells ^^^ 2 ^ cellIdx row col
      else b.cells,
    map_live_outer_cells :=
      if is_outer row col then
        b.map_live_outer_cells.filter (fun c => !(c.row == row && c.col == col))
      else b.map_live_outer_cells }

/-- The `Board::create_imagine_board`: clone, then drop every candidate cell. -/
def Board.create_imagine_board (b : Board) (removing_cells : List Cell) : Board :=
  removing_cells.foldl (fun bd c => bd.drop_cell c.row c.col) b

/-- Row-major list of the 49 grid coordinates, as scanned by the source's
nested `for row in 1..ROWS+1 { for col in 1..COLS+1 }` loops. -/
def gridCoords : List (Nat × Nat) :=
  (List.range' 1 7).flatMap (fun row => (List.range' 1 7).map (fun col => (row, col)))

/-- The `HashMap::insert` on the key list: a fresh key is appended. -/
def insertCellKey (l : List Cell) (c : Cell) : List Cell :=
  if c ∈ l then l else l ++ [c]

/-- The `Board::gen_map_live_outer_cells`: scan the grid row-major and index every
live outer cell. -/
def Board.gen_map_live_outer_cells (b : Board) : Board :=
  gridCoords.foldl
    (fun bd p =>
      if bd.value_at p.1 p.2 && (p.1 % 6 == 1 || p.2 % 6 == 1) then
        { bd with map_live_outer_cells := insertCellKey bd.map_live_outer_cells ⟨p.1, p.2⟩ }
      else bd) b

/-- Per-cell selection rule of one pass of `remove_redundant_blocks`: collapse
on zero live neighbors, or on exactly one live neighbor that is itself outer;
two or more live neighbors are safe. -/
def Board.should_collapse (b : Board) (cell : Cell) : Bool :=
  let live_neighbors := cell.get_neighbors.filter (fun c => b.value_at_cell c)
  match live_neighbors with
  | [] => true
  | [n] => n.is_outer
  | _ => false

/-- The cells one pass of `remove_redundant_blocks` collects for collapse
(the pass scans the live-outer index against the pre-pass bitmap; drops happen
only after the scan). -/
def Board.collapse_pass (b : Board) : List Cell :=
  b.map_live_outer_cells.filter (fun c => b.should_collapse c)

/-- Drop a batch of cells in sequence. -/
def Board.drop_cells (b : Board) (cs : List Cell) : Board :=
  cs.foldl (fun bd c => bd.drop_cell c.row c.col) b

/-- The `while blocks_removed != 0` loop of `remove_redundant_blocks`, with
explicit fuel.  Each productive pass drops at least one indexed outer cell, so
`index length + 1` units of fuel reach the fixed point (proved below). -/
def Board.rrb_fuel : Nat → Board → Board
  | 0, b => b
  | fuel + 1, b =>
    let removing := b.collapse_pass
    if removing.isEmpty then b
    else Board.rrb_fuel fuel (b.drop_cells removing)

/-- The `Board::remove_redundant_blocks`. -/
def Board.remove_redundant_blocks (b : Board) : Board :=
  Board.rrb_fuel (b.map_live_outer_cells.length + 1) b

/-- The neighbor-processing body of the BFS loop: skip dead neighbors, skip
outer-to-outer edges, skip already-visited or already-queued neighbors, else
push to the back of the queue and mark queued. -/
def Board.bfs_push (b : Board) (cell : Cell) (vmask' : Nat)
    (acc : List Cell × Nat) (n : Cell) : List Cell × Nat :=
  if !(b.value_at_cell n) then acc
  else if cell.is_outer && n.is_outer then acc
  else if vmask'.testBit n.bit || acc.2.testBit n.bit then acc
  else (acc.1 ++ [n], acc.2 ||| 2 ^ n.bit)

/-- The BFS loop of `get_reachable_cells`: FIFO queue; `visited` receives the
popped cell before its neighbors are examined; `queued` guards re-enqueueing.
`visited` is kept both as the insertion-order key list (the result) and as a
bitmask (`vmask`) for membership tests; `queued` needs only its bitmask.  One
fuel unit is spent per pop: every push is guarded by `queued` and pushes only
valid grid cells, so at most `49` pushes ever happen and `50` pops empty the
queue on every board. -/
def Board.bfs : Nat → Board → List Cell → List Cell → Nat → Nat → List Cell
  | 0, _, _, visited, _, _ => visited
  | _ + 1, _, [], visited, _, _ => visited
  | fuel + 1, b, cell :: queue, visited, vmask, qmask =>
    let visited' := if vmask.testBit cell.bit then visited else visited ++ [cell]
    let vmask' := vmask ||| 2 ^ cell.bit
    let s := cell.get_neighbors.foldl (b.bfs_push cell vmask') (queue, qmask)
    Board.bfs fuel b s.1 visited' vmask' s.2

/-- The `Board::get_reachable_cells`: BFS from the pivot `(4,4)`. -/
def Board.get_reachable_cells (b : Board) : List Cell :=
  Board.bfs 50 b [⟨MIMIC_INITIAL_ROW, MIMIC_INITIAL_COL⟩] [] 0 0

/-- The `Board::calc_benefit`: hypothetical board, cascade, reachability, budget
check, score and effective removal set. -/
def Board.calc_benefit (b : Board) (removing_cells : List Cell) : Int × List Cell :=
  let imaginery_board := (b.create_imagine_board removing_cells).remove_redundant_blocks
  let reachable_cells := imaginery_board.get_reachable_cells
  let border_cells := reachable_cells.filter (fun c => c.is_outer)
  let num_total_removing_cells := border_cells.length + removing_cells.length
  if num_total_removing_cells > MAX_BLOCKS_TO_REMOVE then (-1, [])
  else (((reachable_cells.length - border_cells.length : Nat) : Int),
        border_cells ++ removing_cells)

/-- The `Board::get_available_blocks`: live, interior, non-pivot cells in
row-major order. -/
def Board.get_available_blocks (b : Board) : List Cell :=
  (gridCoords.filter (fun p =>
      b.value_at p.1 p.2 &&
        (p.1 != MIMIC_INITIAL_ROW || p.2 != MIMIC_INITIAL_COL) &&
        !(is_outer p.1 p.2))).map (fun p => ⟨p.1, p.2⟩)

/-- The `itertools::combinations`: all size-`k` combinations in lexicographic
position order, each in input order. -/
def combinations : Nat → List Cell → List (List Cell)
  | 0, _ => [[]]
  | _ + 1, [] => []
  | k + 1, x :: xs => (combinations k xs).map (fun c => x :: c) ++ combinations (k + 1) xs

/-- The mutable state of `Board::solve`'s size loop, as one record. -/
structure SolveState where
  max_benefit_combinations : List (List Cell)
  max_benefit : Int
  countdown : Nat
  map_size_benefit : List (Nat × Int)
  current_combinations : List (List Cell)
deriving DecidableEq, Repr

/-- Initial `solve` state: empty result set, global best `0`, countdown `2`. -/
def initSolveState : SolveState :=
  { max_benefit_combinations := [], max_benefit := 0, countdown := 2,
    map_size_benefit := [], current_combinations := [] }

/-- The `map_size_benefit.get(&size)` on the association list. -/
def lookupSize (m : List (Nat × Int)) (k : Nat) : Option Int :=
  (m.find? (fun p => p.1 == k)).map (fun p => p.2)

/-- The `map_size_benefit.insert(size, v)`: replace if present, else append. -/
def insertSize (m : List (Nat × Int)) (k : Nat) (v : Int) : List (Nat × Int) :=
  if (m.find? (fun p => p.1 == k)).isSome then
    m.map (fun p => if p.1 == k then (k, v) else p)
  else m ++ [(k, v)]

/-- The body of `solve`'s inner `for combination in combinations` loop. -/
def Board.solve_combo_step (b : Board) (size : Nat) (st : SolveState)
    (combination : List Cell) : SolveState :=
  let r := b.calc_benefit combination
  match lookupSize st.map_size_benefit size with
  | some value =>
    if r.1 > value then
      { st with map_size_benefit := insertSize st.map_size_benefit size r.1,
                current_combinations := [r.2] }
    else if r.1 == value then
      { st with current_combinations := st.current_combinations ++ [r.2] }
    else st
  | none => { st with map_size_benefit := insertSize st.map_size_benefit size r.1 }

/-- One iteration of `solve`'s outer size loop (after the countdown check):
fold the combination loop, then apply the benefit-comparison block; `none`
models the `unwrap` panic on a size that recorded no benefit. -/
def Board.solve_size_step (b : Board) (st : SolveState) (size : Nat)
    (combos : List (List Cell)) : Option SolveState :=
  let st1 := combos.foldl (fun s c => b.solve_combo_step size s c) st
  match lookupSize st1.map_size_benefit size with
  | none => none
  | some benefit =>
    if benefit < st1.max_benefit then
      if benefit != -1 then some { st1 with countdown := st1.countdown - 1 }
      else some st1
    else if benefit == st1.max_benefit then
      some { st1 with
              max_benefit_combinations :=
                st1.max_benefit_combinations ++ st1.current_combinations,
              countdown := 2 }
    else
      some { st1 with max_benefit := benefit,
                      max_benefit_combinations := st1.current_combinations }

/-- The `solve`'s outer loop over the size-indexed combination lists, with the
`countdown == 0` break at the head of each iteration. -/
def Board.solve_loop (b : Board) :
    SolveState → List (Nat × List (List Cell)) → Option SolveState
  | st, [] => some st
  | st, (size, combos) :: rest =>
    if st.countdown == 0 then some st
    else match b.solve_size_step st size combos with
      | none => none
      | some st' => b.solve_loop st' rest

/-- The `BTreeMap` of `solve`: size `0` maps to the single empty combination,
sizes `1..=10` to the combinations of the available blocks, in ascending size
order. -/
def Board.solve_sizes (b : Board) : List (Nat × List (List Cell)) :=
  (0, [[]]) ::
    (List.range' 1 10).map (fun size => (size, combinations size b.get_available_blocks))

/-- The `Board::solve`: run the size loop from the initial state; `none` models
the panic on an `unwrap` of a missing per-size benefit. -/
def Board.solve (b : Board) : Option (Int × List (List Cell)) :=
  (b.solve_loop initSolveState b.solve_sizes).map
    (fun st => (st.max_benefit, st.max_benefit_combinations))


/-! ## Grid predicates and board invariants used by the claims -/

/-- A cell lies inside the 7×7 grid. -/
def Cell.in_grid (c : Cell) : Prop :=
  1 ≤ c.row ∧ c.row ≤ 7 ∧ 1 ≤ c.col ∧ c.col ≤ 7

instance (c : Cell) : Decidable c.in_grid := by
  unfold Cell.in_grid; infer_instance

/-- Soundness half of the §3 index invariant: every indexed cell is an
in-grid, outer, live cell. -/
def Board.index_sound (b : Board) : Prop :=
  ∀ c ∈ b.map_live_outer_cells,
    c.in_grid ∧ c.is_outer = true ∧ b.value_at_cell c = true

/-- Completeness half of the §3 index invariant: every live outer grid cell
is indexed (`gridCoords` enumerates exactly the coordinates the source's
`gen_map_live_outer_cells` scan covers). -/
def Board.index_complete (b : Board) : Prop :=
  ∀ p ∈ gridCoords, is_outer p.1 p.2 = true → b.value_at p.1 p.2 = true →
    (⟨p.1, p.2⟩ : Cell) ∈ b.map_live_outer_cells

/-- The §3 invariant: the live-outer index holds exactly the live outer grid
cells. -/
def Board.index_consistent (b : Board) : Prop :=
  b.index_sound ∧ b.index_complete

instance (b : Board) : Decidable b.index_sound := by
  unfold Board.index_sound; infer_instance

instance (b : Board) : Decidable b.index_complete := by
  unfold Board.index_complete; infer_instance

instance (b : Board) : Decidable b.index_consistent := by
  unfold Board.index_consistent; infer_instance

/-- Weak well-formedness of the index: entries are in-grid outer cells
(liveness not required). -/
def Board.index_wf (b : Board) : Prop :=
  ∀ c ∈ b.map_live_outer_cells, c.in_grid ∧ c.is_outer = true

/-- Weakest index hypothesis: entries satisfy `is_outer`. -/
def Board.index_outer (b : Board) : Prop :=
  ∀ c ∈ b.map_live_outer_cells, c.is_outer = true

instance (b : Board) : Decidable b.index_wf := by
  unfold Board.index_wf; infer_instance

instance (b : Board) : Decidable b.index_outer := by
  unfold Board.index_outer; infer_instance

/-! ## Bitmap lemmas -/

/-- The bit position determines the bitmap answer. -/
theorem value_at_eq_of_cellIdx_eq (b : Board) {r c r' c' : Nat}
    (h : cellIdx r c = cellIdx r' c') : b.value_at r c = b.value_at r' c' := by
  unfold Board.value_at; rw [h]

/-- On in-grid coordinates the bit position is injective. -/
theorem cellIdx_inj {r c r' c' : Nat}
    (h1 : 1 ≤ r) (h2 : r ≤ 7) (h3 : 1 ≤ c) (h4 : c ≤ 7)
    (h5 : 1 ≤ r') (h6 : r' ≤ 7) (h7 : 1 ≤ c') (h8 : c' ≤ 7)
    (h : cellIdx r c = cellIdx r' c') : r = r' ∧ c = c' := by
  unfold cellIdx at h; omega

/-- Dropping a cell makes its own coordinate dead. -/
theorem value_at_drop_cell_self (b : Board) (row col : Nat) :
    (b.drop_cell row col).value_at row col = false := by
  unfold Board.drop_cell Board.value_at
  by_cases h : b.cells.testBit (cellIdx row col)
  · simp [h, Nat.testBit_two_pow_self]
  · simp [h]

/-- Dropping a cell leaves every other bit position unchanged. -/
theorem value_at_drop_cell_ne (b : Board) {row col row' col' : Nat}
    (h : cellIdx row' col' ≠ cellIdx row col) :
    (b.drop_cell row col).value_at row' col' = b.value_at row' col' := by
  unfold Board.drop_cell Board.value_at
  by_cases hb : b.cells.testBit (cellIdx row col)
  · simp [hb, Nat.testBit_two_pow_of_ne (fun hx => h hx.symm)]
  · simp [hb]

/-- A dead coordinate stays dead under any further drop. -/
theorem value_at_drop_cell_of_false (b : Board) {row col : Nat} (r c : Nat)
    (h : b.value_at row col = false) :
    (b.drop_cell r c).value_at row col = false := by
  by_cases hidx : cellIdx row col = cellIdx r c
  · rw [value_at_eq_of_cellIdx_eq _ hidx, value_at_drop_cell_self]
  · rw [value_at_drop_cell_ne _ hidx, h]

/-- A dead coordinate stays dead under a batch of drops. -/
theorem value_at_drop_cells_of_false (b : Board) (cs : List Cell) {row col : Nat}
    (h : b.value_at row col = false) :
    (b.drop_cells cs).value_at row col = false := by
  induction cs generalizing b with
  | nil => exact h
  | cons x xs ih =>
    exact ih (b.drop_cell x.row x.col) (value_at_drop_cell_of_false b x.row x.col h)

/-- Every cell of a dropped batch is dead afterwards. -/
theorem value_at_drop_cells_mem (b : Board) (cs : List Cell) {x : Cell}
    (hx : x ∈ cs) : (b.drop_cells cs).value_at_cell x = false := by
  induction cs generalizing b with
  | nil => cases hx
  | cons y ys ih =>
    rcases List.mem_cons.mp hx with rfl | hmem
    · exact value_at_drop_cells_of_false _ ys (value_at_drop_cell_self b x.row x.col)
    · exact ih (b.drop_cell y.row y.col) hmem

/-- A batch of drops at bit positions different from `(row, col)`'s leaves it
unchanged. -/
theorem value_at_drop_cells_of_ne (b : Board) (cs : List Cell) {row col : Nat}
    (h : ∀ x ∈ cs, cellIdx row col ≠ cellIdx x.row x.col) :
    (b.drop_cells cs).value_at row col = b.value_at row col := by
  induction cs generalizing b with
  | nil => rfl
  | cons x xs ih =>
    have hstep : b.drop_cells (x :: xs) = (b.drop_cell x.row x.col).drop_cells xs := rfl
    rw [hstep, ih _ (fun y hy => h y (List.mem_cons_of_mem _ hy)),
      value_at_drop_cell_ne _ (h x (List.mem_cons_self _ _))]

/-- Membership in the row-major coordinate list is exactly in-grid-ness. -/
theorem mem_gridCoords {p : Nat × Nat} :
    p ∈ gridCoords ↔ 1 ≤ p.1 ∧ p.1 ≤ 7 ∧ 1 ≤ p.2 ∧ p.2 ≤ 7 := by
  cases p with
  | mk r c =>
    constructor
    · intro h
      unfold gridCoords at h
      rcases List.mem_flatMap.mp h with ⟨row, hrow, hmem⟩
      rcases List.mem_map.mp hmem with ⟨col, hcol, heq⟩
      rcases List.mem_range'_1.mp hrow with ⟨h1, h2⟩
      rcases List.mem_range'_1.mp hcol with ⟨h3, h4⟩
      cases heq
      exact ⟨h1, by omega, h3, by omega⟩
    · rintro ⟨h1, h2, h3, h4⟩
      unfold gridCoords
      exact List.mem_flatMap.mpr ⟨r, List.mem_range'_1.mpr ⟨h1, by omega⟩,
        List.mem_map.mpr ⟨c, List.mem_range'_1.mpr ⟨h3, by omega⟩, rfl⟩⟩

/-! ## Index lemmas -/

/-- The `drop_cell` never adds index entries. -/
theorem drop_cell_index_subset (b : Board) (row col : Nat) :
    (b.drop_cell row col).map_live_outer_cells ⊆ b.map_live_outer_cells := by
  unfold Board.drop_cell
  dsimp only
  split
  · exact fun x hx => List.mem_of_mem_filter hx
  · exact fun x h => h

/-- The `drop_cell` never lengthens the index. -/
theorem drop_cell_index_length_le (b : Board) (row col : Nat) :
    (b.drop_cell row col).map_live_outer_cells.length ≤ b.map_live_outer_cells.length := by
  unfold Board.drop_cell
  dsimp only
  split
  · exact List.length_filter_le _ _
  · exact Nat.le_refl _

/-- Dropping an indexed outer cell strictly shrinks the index. -/
theorem drop_cell_index_length_lt (b : Board) {x : Cell}
    (hx : x ∈ b.map_live_outer_cells) (hout : x.is_outer = true) :
    (b.drop_cell x.row x.col).map_live_outer_cells.length <
      b.map_live_outer_cells.length := by
  unfold Board.drop_cell
  dsimp only
  have hout' : is_outer x.row x.col = true := hout
  rw [if_pos hout']
  refine List.length_filter_lt_length_iff_exists.mpr ⟨x, hx, ?_⟩
  simp

/-- Batched drops never add index entries. -/
theorem drop_cells_index_subset (b : Board) (cs : List Cell) :
    (b.drop_cells cs).map_live_outer_cells ⊆ b.map_live_outer_cells := by
  induction cs generalizing b with
  | nil => exact fun x h => h
  | cons x xs ih =>
    exact fun y hy =>
      drop_cell_index_subset b x.row x.col (ih (b.drop_cell x.row x.col) hy)

/-- Batched drops never lengthen the index. -/
theorem drop_cells_index_length_le (b : Board) (cs : List Cell) :
    (b.drop_cells cs).map_live_outer_cells.length ≤ b.map_live_outer_cells.length := by
  induction cs generalizing b with
  | nil => exact Nat.le_refl _
  | cons x xs ih =>
    exact Nat.le_trans (ih (b.drop_cell x.row x.col)) (drop_cell_index_length_le b x.row x.col)

/-- The cells a pass collects all come from the live-outer index. -/
theorem collapse_pass_subset (b : Board) : b.collapse_pass ⊆ b.map_live_outer_cells :=
  fun _ hx => List.mem_of_mem_filter hx

/-- A productive pass strictly shrinks the live-outer index. -/
theorem collapse_pass_shrinks (b : Board) (houter : b.index_outer)
    (hne : b.collapse_pass ≠ []) :
    (b.drop_cells b.collapse_pass).map_live_outer_cells.length <
      b.map_live_outer_cells.length := by
  obtain ⟨x, xs, hx⟩ : ∃ y ys, b.collapse_pass = y :: ys := by
    cases h : b.collapse_pass with
    | nil => exact absurd h hne
    | cons y ys => exact ⟨y, ys, rfl⟩
  have hxmem : x ∈ b.map_live_outer_cells :=
    collapse_pass_subset b (hx ▸ List.mem_cons_self x xs)
  have hstep : b.drop_cells b.collapse_pass = (b.drop_cell x.row x.col).drop_cells xs := by
    rw [hx]; rfl
  calc (b.drop_cells b.collapse_pass).map_live_outer_cells.length
      ≤ (b.drop_cell x.row x.col).map_live_outer_cells.length := by
        rw [hstep]; exact drop_cells_index_length_le _ xs
    _ < b.map_live_outer_cells.length :=
        drop_cell_index_length_lt b hxmem (houter x hxmem)

/-- The `index_outer` is preserved by batched drops. -/
theorem index_outer_drop_cells (b : Board) (cs : List Cell) (h : b.index_outer) :
    (b.drop_cells cs).index_outer :=
  fun c hc => h c (drop_cells_index_subset b cs hc)

/-- The `index_wf` is preserved by batched drops. -/
theorem index_wf_drop_cells (b : Board) (cs : List Cell) (h : b.index_wf) :
    (b.drop_cells cs).index_wf :=
  fun c hc => h c (drop_cells_index_subset b cs hc)

/-! ## Cascade fixed-point lemmas -/

/-- With enough fuel the cascade loop reaches a state selecting no cells. -/
theorem rrb_fuel_stable :
    ∀ n (b : Board), b.index_outer → b.map_live_outer_cells.length < n →
      (Board.rrb_fuel n b).collapse_pass = [] := by
  intro n
  induction n with
  | zero => intro b _ h; omega
  | succ n ih =>
    intro b houter hlen
    rw [Board.rrb_fuel]
    by_cases hemp : b.collapse_pass.isEmpty
    · simpa [hemp] using List.isEmpty_iff.mp hemp
    · have hne : b.collapse_pass ≠ [] := fun h => hemp (by simp [h])
      simp only [hemp, if_false]
      exact ih _ (index_outer_drop_cells b _ houter)
        (Nat.lt_of_lt_of_le (collapse_pass_shrinks b houter hne) (by omega))

/-- Any two sufficient fuel amounts give the same cascade result. -/
theorem rrb_fuel_congr :
    ∀ n m (b : Board), b.index_outer → b.map_live_outer_cells.length < n →
      b.map_live_outer_cells.length < m → Board.rrb_fuel n b = Board.rrb_fuel m b := by
  intro n
  induction n with
  | zero => intro m b _ h; omega
  | succ n ih =>
    intro m b houter hn hm
    cases m with
    | zero => omega
    | succ m =>
      rw [Board.rrb_fuel, Board.rrb_fuel]
      by_cases hemp : b.collapse_pass.isEmpty
      · simp [hemp]
      · have hne : b.collapse_pass ≠ [] := fun h => hemp (by simp [h])
        simp only [hemp, if_false]
        have hlt := collapse_pass_shrinks b houter hne
        exact ih m _ (index_outer_drop_cells b _ houter)
          (by omega) (by omega)

/-- Claim C8 — the Cascade Collapse Engine terminates: a productive pass
strictly shrinks the live-outer index, the loop's allotted fuel
(`index length + 1`) reaches the fixed point (the final board selects no
cells), and any larger fuel amount computes the same result.  The hypothesis
is the data-model invariant of §3 restricted to what the argument needs:
index entries satisfy `is_outer`. -/
theorem rrb_terminates (b : Board) (houter : b.index_outer) :
    (b.collapse_pass ≠ [] →
      (b.drop_cells b.collapse_pass).map_live_outer_cells.length <
        b.map_live_outer_cells.length) ∧
    b.remove_redundant_blocks.collapse_pass = [] ∧
    (∀ n, b.map_live_outer_cells.length < n →
      Board.rrb_fuel n b = b.remove_redundant_blocks) := by
  refine ⟨collapse_pass_shrinks b houter, ?_, ?_⟩
  · exact rrb_fuel_stable _ b houter (Nat.lt_succ_self _)
  · intro n hn
    exact rrb_fuel_congr n _ b houter hn (Nat.lt_succ_self _)

/-- Witness for `rrb_terminates`: the fully populated board built the way
`from_input` builds it. -/
theorem rrb_terminates_witness :
    (Board.new.gen_map_live_outer_cells).index_outer ∧
      (Board.new.gen_map_live_outer_cells).remove_redundant_blocks.collapse_pass = [] :=
  ⟨by decide, (rrb_terminates Board.new.gen_map_live_outer_cells (by decide)).2.1⟩

/-! ## Cascade preservation of interior cells -/

/-- Any fuelled run of the cascade only changes bits of in-grid outer cells:
a non-outer in-grid coordinate keeps its value. -/
theorem rrb_fuel_value_at_non_outer :
    ∀ n (b : Board), b.index_wf → ∀ row col, 1 ≤ row → row ≤ 7 → 1 ≤ col → col ≤ 7 →
      is_outer row col = false →
      (Board.rrb_fuel n b).value_at row col = b.value_at row col := by
  intro n
  induction n with
  | zero => intro b _ row col _ _ _ _ _; rfl
  | succ n ih =>
    intro b hwf row col h1 h2 h3 h4 hnout
    rw [Board.rrb_fuel]
    by_cases hemp : b.collapse_pass.isEmpty
    · simp [hemp]
    · rw [if_neg hemp]
      rw [ih _ (index_wf_drop_cells b _ hwf) row col h1 h2 h3 h4 hnout]
      refine value_at_drop_cells_of_ne b _ (fun x hx hidx => ?_)
      obtain ⟨⟨g1, g2, g3, g4⟩, gout⟩ := hwf x (collapse_pass_subset b hx)
      obtain ⟨hr, hc⟩ := cellIdx_inj h1 h2 h3 h4 g1 g2 g3 g4 hidx
      have : is_outer row col = true := by
        have : x.is_outer = true := gout
        unfold Cell.is_outer at this
        rw [hr, hc]; exact this
      rw [this] at hnout; cases hnout

/-- Claim C10 — the cascade drops only cells drawn from the live-outer index,
so (under the §3 invariant, restricted to: index entries are in-grid outer
cells) no interior cell is ever removed, and in particular the pivot `(4,4)`
keeps its value. -/
theorem rrb_preserves_interior (b : Board) (hwf : b.index_wf)
    (row col : Nat) (h1 : 1 ≤ row) (h2 : row ≤ 7) (h3 : 1 ≤ col) (h4 : col ≤ 7)
    (hnout : is_outer row col = false) :
    b.remove_redundant_blocks.value_at row col = b.value_at row col ∧
    b.remove_redundant_blocks.value_at MIMIC_INITIAL_ROW MIMIC_INITIAL_COL =
      b.value_at MIMIC_INITIAL_ROW MIMIC_INITIAL_COL := by
  constructor
  · exact rrb_fuel_value_at_non_outer _ b hwf row col h1 h2 h3 h4 hnout
  · exact rrb_fuel_value_at_non_outer _ b hwf MIMIC_INITIAL_ROW MIMIC_INITIAL_COL
      (by decide) (by decide) (by decide) (by decide) (by decide)

/-- Witness for `rrb_preserves_interior`: the populated board, interior cell
`(3,3)`. -/
theorem rrb_preserves_interior_witness :
    (Board.new.gen_map_live_outer_cells).index_wf ∧
      (Board.new.gen_map_live_outer_cells).remove_redundant_blocks.value_at 3 3 =
        (Board.new.gen_map_live_outer_cells).value_at 3 3 :=
  ⟨by decide,
    (rrb_preserves_interior Board.new.gen_map_live_outer_cells (by decide) 3 3
      (by decide) (by decide) (by decide) (by decide) (by decide)).1⟩

/-! ## The per-pass selection rule -/

/-- Claim C5 — in one pass of the Cascade Collapse Engine, under the §3 index
invariant, a live outer grid cell is selected exactly when it has zero live
neighbors, or exactly one live neighbor that is itself outer; all selected
cells are dead once the pass's batch drop has run; and a pass selecting no
cells ends the loop with the board unchanged. -/
theorem collapse_pass_rule (b : Board) (hcons : b.index_consistent) (cell : Cell)
    (hgrid : cell.in_grid) (hlive : b.value_at_cell cell = true)
    (hout : cell.is_outer = true) :
    (cell ∈ b.collapse_pass ↔
      (cell.get_neighbors.filter (fun c => b.value_at_cell c) = [] ∨
        ∃ n, cell.get_neighbors.filter (fun c => b.value_at_cell c) = [n] ∧
          n.is_outer = true)) ∧
    (cell ∈ b.collapse_pass → (b.drop_cells b.collapse_pass).value_at_cell cell = false) ∧
    (b.collapse_pass = [] → b.remove_redundant_blocks = b) := by
  have hmem : cell ∈ b.map_live_outer_cells := by
    obtain ⟨h1, h2, h3, h4⟩ := hgrid
    have := hcons.2 (cell.row, cell.col)
      (mem_gridCoords.mpr ⟨h1, h2, h3, h4⟩) hout hlive
    simpa using this
  refine ⟨⟨?_, ?_⟩, ?_, ?_⟩
  · intro hsel
    have hsc := (List.mem_filter.mp hsel).2
    unfold Board.should_collapse at hsc
    rcases hlist : cell.get_neighbors.filter (fun c => b.value_at_cell c) with
      _ | ⟨n, _ | ⟨m, rest⟩⟩
    · exact Or.inl rfl
    · rw [hlist] at hsc
      exact Or.inr ⟨n, rfl, hsc⟩
    · rw [hlist] at hsc
      simp at hsc
  · intro hrule
    refine List.mem_filter.mpr ⟨hmem, ?_⟩
    unfold Board.should_collapse
    rcases hrule with hnil | ⟨n, hn, houtn⟩
    · rw [hnil]
    · rw [hn]
      exact houtn
  · intro hsel
    exact value_at_drop_cells_mem b _ hsel
  · intro hpass
    unfold Board.remove_redundant_blocks
    rw [Board.rrb_fuel]
    show (if (b.collapse_pass).isEmpty then b else _) = b
    rw [hpass]
    rfl

/-- Witness for `collapse_pass_rule`: the populated board and the corner
outer cell `(1,1)`, which has two live neighbors and so is not selected. -/
theorem collapse_pass_rule_witness :
    ((Board.new.gen_map_live_outer_cells).index_consistent ∧
      (⟨1, 1⟩ : Cell).in_grid ∧
      (Board.new.gen_map_live_outer_cells).value_at_cell ⟨1, 1⟩ = true ∧
      (⟨1, 1⟩ : Cell).is_outer = true) ∧
    ((⟨1, 1⟩ : Cell) ∈ (Board.new.gen_map_live_outer_cells).collapse_pass ↔
      ((⟨1, 1⟩ : Cell).get_neighbors.filter
          (fun c => (Board.new.gen_map_live_outer_cells).value_at_cell c) = [] ∨
        ∃ n, (⟨1, 1⟩ : Cell).get_neighbors.filter
            (fun c => (Board.new.gen_map_live_outer_cells).value_at_cell c) = [n] ∧
          n.is_outer = true)) :=
  ⟨⟨by decide, by decide, by decide, by decide⟩,
    (collapse_pass_rule Board.new.gen_map_live_outer_cells (by decide) ⟨1, 1⟩
      (by decide) (by decide) (by decide)).1⟩

/-! ## The index invariant: `new`, `gen_map_live_outer_cells`, `drop_cell` -/

/-- Counterexample to claim C7 as stated: `Board::new` leaves the live-outer
index empty, so the board it returns violates the invariant — cell `(1,1)` is
live and outer yet unindexed.  (The source populates the index only through
the separate `gen_map_live_outer_cells` call made by `from_input`.) -/
theorem new_board_index_not_consistent :
    Board.new.value_at 1 1 = true ∧ is_outer 1 1 = true ∧
      (⟨1, 1⟩ : Cell) ∉ Board.new.map_live_outer_cells ∧
      ¬ Board.new.index_consistent := by decide

/-- The `drop_cell` at an in-grid coordinate preserves the §3 index invariant. -/
theorem drop_cell_preserves_consistent (b : Board) (hcons : b.index_consistent)
    (row col : Nat) (h1 : 1 ≤ row) (h2 : row ≤ 7) (h3 : 1 ≤ col) (h4 : col ≤ 7) :
    (b.drop_cell row col).index_consistent := by
  obtain ⟨hsound, hcomp⟩ := hcons
  constructor
  · intro c hc
    have hcsub : c ∈ b.map_live_outer_cells := drop_cell_index_subset b row col hc
    obtain ⟨hgrid, houtc, hlivec⟩ := hsound c hcsub
    refine ⟨hgrid, houtc, ?_⟩
    have hne : ¬(c.row = row ∧ c.col = col) := by
      by_cases hbo : is_outer row col = true
      · unfold Board.drop_cell at hc
        dsimp only at hc
        rw [if_pos hbo] at hc
        have hpred := (List.mem_filter.mp hc).2
        rintro ⟨hr, hcq⟩
        rw [hr, hcq] at hpred
        simp at hpred
      · rintro ⟨hr, hcq⟩
        refine hbo ?_
        have h' := houtc
        unfold Cell.is_outer at h'
        rw [hr, hcq] at h'
        exact h'
    obtain ⟨g1, g2, g3, g4⟩ := hgrid
    have hidx : cellIdx c.row c.col ≠ cellIdx row col := fun heq =>
      hne (cellIdx_inj g1 g2 g3 g4 h1 h2 h3 h4 heq)
    show (b.drop_cell row col).value_at c.row c.col = true
    rw [value_at_drop_cell_ne b hidx]
    exact hlivec
  · intro p hp hpo hpl
    obtain ⟨g1, g2, g3, g4⟩ := mem_gridCoords.mp hp
    have hne : ¬(p.1 = row ∧ p.2 = col) := by
      rintro ⟨hr, hcq⟩
      rw [hr, hcq, value_at_drop_cell_self] at hpl
      cases hpl
    have hidx : cellIdx p.1 p.2 ≠ cellIdx row col := fun heq =>
      hne (cellIdx_inj g1 g2 g3 g4 h1 h2 h3 h4 heq)
    have hlive_before : b.value_at p.1 p.2 = true := by
      rw [← value_at_drop_cell_ne b hidx]
      exact hpl
    have hmem := hcomp p hp hpo hlive_before
    unfold Board.drop_cell
    dsimp only
    by_cases hbo : is_outer row col = true
    · rw [if_pos hbo]
      refine List.mem_filter.mpr ⟨hmem, ?_⟩
      by_cases hr : p.1 = row
      · have hc2 : p.2 ≠ col := fun hcq => hne ⟨hr, hcq⟩
        simp [hr, hc2]
      · simp [hr]
    · rw [if_neg hbo]
      exact hmem

/-- Claim C7, amended — the §3 invariant holds for the board `from_input`
starts from (`new` followed by `gen_map_live_outer_cells`; `new` alone leaves
the index empty) and is preserved by every in-grid `drop_cell`. -/
theorem gen_consistent_and_drop_preserves :
    (Board.new.gen_map_live_outer_cells).index_consistent ∧
    ∀ (b : Board), b.index_consistent →
      ∀ row col, 1 ≤ row → row ≤ 7 → 1 ≤ col → col ≤ 7 →
        (b.drop_cell row col).index_consistent :=
  ⟨by decide, fun b hc row col hr1 hr2 hc1 hc2 =>
    drop_cell_preserves_consistent b hc row col hr1 hr2 hc1 hc2⟩

/-- Witness for `gen_consistent_and_drop_preserves`: dropping the interior
cell `(2,3)` from the populated board keeps the invariant. -/
theorem gen_consistent_and_drop_preserves_witness :
    ((Board.new.gen_map_live_outer_cells).drop_cell 2 3).index_consistent :=
  gen_consistent_and_drop_preserves.2 _ gen_consistent_and_drop_preserves.1 2 3
    (by decide) (by decide) (by decide) (by decide)

/-! ## BFS lemmas -/

/-- The visited list only grows during the BFS. -/
theorem bfs_visited_mono :
    ∀ fuel (b : Board) q v vm qm, v ⊆ Board.bfs fuel b q v vm qm := by
  intro fuel
  induction fuel with
  | zero => intro b q v vm qm; exact fun x h => h
  | succ n ih =>
    intro b q v vm qm
    cases q with
    | nil => exact fun x h => h
    | cons cell rest =>
      have hsub : v ⊆ (if vm.testBit cell.bit then v else v ++ [cell]) := by
        split
        · exact fun x h => h
        · exact fun x h => List.mem_append_left _ h
      exact fun x hx => ih b _ (if vm.testBit cell.bit then v else v ++ [cell]) _ _ (hsub hx)

/-- If the head of the queue starts with a zero visited-mask, it ends up in
the BFS result (this is the first pop of `get_reachable_cells`, which records
the pivot unconditionally — even when the pivot cell is dead). -/
theorem bfs_head_mem (fuel : Nat) (b : Board) (cell : Cell) (rest v : List Cell)
    (qm : Nat) : cell ∈ Board.bfs (fuel + 1) b (cell :: rest) v 0 qm := by
  have h0 : (0 : Nat).testBit cell.bit = false := Nat.zero_testBit _
  have hmem : cell ∈ (if (0 : Nat).testBit cell.bit then v else v ++ [cell]) := by
    rw [h0]
    simp
  exact bfs_visited_mono fuel b _ (if (0 : Nat).testBit cell.bit then v else v ++ [cell])
    _ _ hmem

/-- Claim C4, amended — for every board, the Reachability Analyzer's result
contains the pivot cell `(4,4)`: a dead pivot is not treated as an empty
reachable set.  (The BFS never checks the liveness of the popped cell, only
of neighbors.) -/
theorem pivot_always_in_reachable (b : Board) :
    (⟨MIMIC_INITIAL_ROW, MIMIC_INITIAL_COL⟩ : Cell) ∈ b.get_reachable_cells := by
  unfold Board.get_reachable_cells
  have h50 : (50 : Nat) = 49 + 1 := rfl
  rw [h50]
  exact bfs_head_mem 49 b _ [] [] 0

/-- The board obtained by dropping the pivot from the populated board. -/
def board_c4 : Board := (Board.new.gen_map_live_outer_cells).drop_cell 4 4

/-- Counterexample to claim C4 as stated: on a board whose pivot `(4,4)` is
dead, `get_reachable_cells` does not return the empty set — the BFS inserts
the dead pivot into the visited set and keeps expanding through its live
neighbors. -/
theorem dead_pivot_reachable_not_empty :
    board_c4.value_at_cell ⟨4, 4⟩ = false ∧ board_c4.get_reachable_cells ≠ [] := by
  decide

/-- Properties preserved by the queue component of a `bfs_push` fold: any
predicate holding of every queued cell and of every live cell holds of every
cell in the folded queue. -/
theorem bfs_push_fold_queue_prop (b : Board) (cell : Cell) (vmask' : Nat)
    (P : Cell → Prop) (hP : ∀ n, b.value_at_cell n = true → P n) :
    ∀ (nbrs : List Cell) (acc : List Cell × Nat), (∀ x ∈ acc.1, P x) →
      ∀ x ∈ (nbrs.foldl (b.bfs_push cell vmask') acc).1, P x := by
  intro nbrs
  induction nbrs with
  | nil => intro acc h; exact h
  | cons n ns ih =>
    intro acc hacc
    rw [List.foldl_cons]
    refine ih _ ?_
    unfold Board.bfs_push
    by_cases hlive : b.value_at_cell n
    · simp only [hlive, Bool.not_true, Bool.false_eq_true, if_false]
      split
      · exact hacc
      · split
        · exact hacc
        · intro x hx
          rcases List.mem_append.mp hx with hx | hx
          · exact hacc x hx
          · rw [List.mem_singleton.mp hx]
            exact hP n hlive
    · have hlive' : b.value_at_cell n = false := by
        cases h : b.value_at_cell n
        · rfl
        · exact absurd h hlive
      simp only [hlive', Bool.not_false, if_true]
      exact hacc

/-- Every cell the BFS ever visits is the pivot or is live on the board. -/
theorem bfs_visited_live :
    ∀ fuel (b : Board) q v vm qm,
      (∀ x ∈ q, x = (⟨MIMIC_INITIAL_ROW, MIMIC_INITIAL_COL⟩ : Cell) ∨
        b.value_at_cell x = true) →
      (∀ x ∈ v, x = (⟨MIMIC_INITIAL_ROW, MIMIC_INITIAL_COL⟩ : Cell) ∨
        b.value_at_cell x = true) →
      ∀ x ∈ Board.bfs fuel b q v vm qm,
        x = (⟨MIMIC_INITIAL_ROW, MIMIC_INITIAL_COL⟩ : Cell) ∨
          b.value_at_cell x = true := by
  intro fuel
  induction fuel with
  | zero => intro b q v vm qm _ hv; exact hv
  | succ n ih =>
    intro b q v vm qm hq hv
    cases q with
    | nil => exact hv
    | cons cell rest =>
      have hv' : ∀ x ∈ (if vm.testBit cell.bit then v else v ++ [cell]),
          x = (⟨MIMIC_INITIAL_ROW, MIMIC_INITIAL_COL⟩ : Cell) ∨
            b.value_at_cell x = true := by
        split
        · exact hv
        · intro x hx
          rcases List.mem_append.mp hx with hx | hx
          · exact hv x hx
          · rw [List.mem_singleton.mp hx]
            exact hq cell (List.mem_cons_self _ _)
      have hq' := bfs_push_fold_queue_prop b cell (vm ||| 2 ^ cell.bit)
        (fun x => x = (⟨MIMIC_INITIAL_ROW, MIMIC_INITIAL_COL⟩ : Cell) ∨
          b.value_at_cell x = true)
        (fun nb hnb => Or.inr hnb) cell.get_neighbors (rest, qm)
        (fun x hx => hq x (List.mem_cons_of_mem _ hx))
      exact ih b _ _ _ _ hq' hv'

/-! ## Effective removal set, score sign, budget rejection -/

/-- Claim C2, amended — every cell in the effective removal set returned by
`calc_benefit` is either a candidate cell or a still-live outer cell of the
collapsed hypothetical board (the reachable border remainder).  In particular
a cell the cascade has removed is never part of the returned set unless it
was itself a candidate. -/
theorem effective_set_members (b : Board) (removing_cells : List Cell) (x : Cell)
    (hx : x ∈ (b.calc_benefit removing_cells).2) :
    x ∈ removing_cells ∨
      (x.is_outer = true ∧
        (b.create_imagine_board removing_cells).remove_redundant_blocks.value_at_cell x =
          true) := by
  unfold Board.calc_benefit at hx
  dsimp only at hx
  split at hx
  · simp at hx
  · rcases List.mem_append.mp hx with hb | hr
    · have houter : x.is_outer = true := (List.mem_filter.mp hb).2
      have hreach := (List.mem_filter.mp hb).1
      refine Or.inr ⟨houter, ?_⟩
      unfold Board.get_reachable_cells at hreach
      have hlive := bfs_visited_live 50
        (b.create_imagine_board removing_cells).remove_redundant_blocks
        [⟨MIMIC_INITIAL_ROW, MIMIC_INITIAL_COL⟩] [] 0 0
        (fun y hy => Or.inl (List.mem_singleton.mp hy))
        (fun y hy => absurd hy (List.not_mem_nil y)) x hreach
      rcases hlive with hpiv | hlive
      · rw [hpiv] at houter
        exact absurd houter (by decide)
      · exact hlive
    · exact Or.inl hr

/-- The drop list of the board used against claims C1 and C2's scenario
boards are built the way `main` builds them: populate, drop the input cells,
collapse.  This is the claim C2 scenario board. -/
def drops_c2 : List (Nat × Nat) :=
  [(1, 1), (1, 5), (1, 6), (1, 7), (2, 2), (2, 3), (2, 4), (2, 6), (2, 7),
   (3, 4), (3, 5), (3, 7), (4, 1), (4, 2), (4, 7), (5, 2), (5, 5), (5, 6),
   (6, 2), (6, 4), (6, 6), (7, 1), (7, 2), (7, 3), (7, 4), (7, 5), (7, 7)]

/-- Board for the claim C2 counterexample. -/
def board_c2 : Board :=
  (drops_c2.foldl (fun bd p => bd.drop_cell p.1 p.2)
    Board.new.gen_map_live_outer_cells).remove_redundant_blocks

/-- Witness for `effective_set_members`: on `board_c2` the border cell
`(3,1)` of the effective set is not a candidate, so it is a live outer cell
of the collapsed board. -/
theorem effective_set_members_witness :
    (⟨3, 1⟩ : Cell) ∈ (board_c2.calc_benefit [⟨4, 6⟩]).2 ∧
      ((⟨3, 1⟩ : Cell) ∈ ([⟨4, 6⟩] : List Cell) ∨
        ((⟨3, 1⟩ : Cell).is_outer = true ∧
          (board_c2.create_imagine_board [⟨4, 6⟩]).remove_redundant_blocks.value_at_cell
            ⟨3, 1⟩ = true)) :=
  ⟨by decide, effective_set_members board_c2 [⟨4, 6⟩] ⟨3, 1⟩ (by decide)⟩

/-- Counterexample to claim C2 as stated: on `board_c2` the candidate
`{(4,6)}` is an accepted evaluation and unsupports exactly one live outer
neighbor, `(5,7)` (whose sole live neighbor is `(4,6)`); the cascade removes
`(5,7)`, yet the returned effective removal set contains the candidate but
not the collapsed cell — the set is candidate ∪ border remainder, not
candidate ∪ cascade fallout. -/
theorem effective_set_omits_collapsed_cell :
    board_c2.value_at_cell ⟨5, 7⟩ = true ∧
    (⟨5, 7⟩ : Cell).is_outer = true ∧
    (⟨5, 7⟩ : Cell) ∈ (⟨4, 6⟩ : Cell).get_neighbors ∧
    (⟨5, 7⟩ : Cell).get_neighbors.filter (fun c => board_c2.value_at_cell c) =
      [⟨4, 6⟩] ∧
    (board_c2.create_imagine_board [⟨4, 6⟩]).remove_redundant_blocks.value_at_cell
      ⟨5, 7⟩ = false ∧
    (board_c2.calc_benefit [⟨4, 6⟩]).1 ≠ -1 ∧
    (⟨4, 6⟩ : Cell) ∈ (board_c2.calc_benefit [⟨4, 6⟩]).2 ∧
    (⟨5, 7⟩ : Cell) ∉ (board_c2.calc_benefit [⟨4, 6⟩]).2 := by
  decide

/-- Claim C9 — the border cells are a filter of the reachable cells, so the
unsigned subtraction `reachable.len() - border.len()` cannot underflow, and
every evaluation returns either the sentinel `(-1, [])` or a score `≥ 0`. -/
theorem calc_benefit_no_underflow (b : Board) (removing_cells : List Cell) :
    ((b.create_imagine_board removing_cells).remove_redundant_blocks.get_reachable_cells.filter
        (fun c => c.is_outer)).length ≤
      (b.create_imagine_board removing_cells).remove_redundant_blocks.get_reachable_cells.length ∧
    (b.calc_benefit removing_cells = (-1, []) ∨ 0 ≤ (b.calc_benefit removing_cells).1) := by
  constructor
  · exact List.length_filter_le _ _
  · unfold Board.calc_benefit
    dsimp only
    split
    · exact Or.inl rfl
    · exact Or.inr (Int.natCast_nonneg _)

/-- Claim C6 — when the reachable border remainder plus the candidate count
exceeds the budget of 10, `calc_benefit` returns the sentinel `-1` with an
empty effective removal set. -/
theorem calc_benefit_budget_reject (b : Board) (removing_cells : List Cell)
    (h : MAX_BLOCKS_TO_REMOVE <
      ((b.create_imagine_board removing_cells).remove_redundant_blocks.get_reachable_cells.filter
          (fun c => c.is_outer)).length + removing_cells.length) :
    b.calc_benefit removing_cells = (-1, []) := by
  unfold Board.calc_benefit
  dsimp only
  rw [if_pos]
  exact h

/-- Witness for `calc_benefit_budget_reject`: the fully populated board has a
reachable border remainder of 22 cells, so even the empty candidate is
rejected. -/
theorem calc_benefit_budget_reject_witness :
    MAX_BLOCKS_TO_REMOVE <
      (((Board.new.gen_map_live_outer_cells).create_imagine_board
            ([] : List Cell)).remove_redundant_blocks.get_reachable_cells.filter
          (fun c => c.is_outer)).length + ([] : List Cell).length ∧
    (Board.new.gen_map_live_outer_cells).calc_benefit [] = (-1, []) :=
  ⟨by decide, calc_benefit_budget_reject _ _ (by decide)⟩

/-! ## The search driver: result-set provenance (claim C1) -/

/-- One inner-loop step keeps every tracked combination an output of
`calc_benefit`. -/
theorem solve_combo_step_inv (b : Board) (size : Nat) (st : SolveState)
    (combination : List Cell)
    (hmax : ∀ c ∈ st.max_benefit_combinations, ∃ r, c = (b.calc_benefit r).2)
    (hcur : ∀ c ∈ st.current_combinations, ∃ r, c = (b.calc_benefit r).2) :
    (∀ c ∈ (b.solve_combo_step size st combination).max_benefit_combinations,
      ∃ r, c = (b.calc_benefit r).2) ∧
    (∀ c ∈ (b.solve_combo_step size st combination).current_combinations,
      ∃ r, c = (b.calc_benefit r).2) := by
  unfold Board.solve_combo_step
  cases hls : lookupSize st.map_size_benefit size with
  | none =>
    simp only [hls]
    exact ⟨hmax, hcur⟩
  | some value =>
    simp only [hls]
    split
    · refine ⟨hmax, fun c hc => ?_⟩
      rw [List.mem_singleton.mp hc]
      exact ⟨combination, rfl⟩
    · split
      · refine ⟨hmax, fun c hc => ?_⟩
        rcases List.mem_append.mp hc with h | h
        · exact hcur c h
        · rw [List.mem_singleton.mp h]
          exact ⟨combination, rfl⟩
      · exact ⟨hmax, hcur⟩

/-- The inner-loop fold keeps every tracked combination an output of
`calc_benefit`. -/
theorem solve_combo_fold_inv (b : Board) (size : Nat) :
    ∀ (combos : List (List Cell)) (st : SolveState),
      (∀ c ∈ st.max_benefit_combinations, ∃ r, c = (b.calc_benefit r).2) →
      (∀ c ∈ st.current_combinations, ∃ r, c = (b.calc_benefit r).2) →
      (∀ c ∈ (combos.foldl (fun s c => b.solve_combo_step size s c)
          st).max_benefit_combinations, ∃ r, c = (b.calc_benefit r).2) ∧
      (∀ c ∈ (combos.foldl (fun s c => b.solve_combo_step size s c)
          st).current_combinations, ∃ r, c = (b.calc_benefit r).2) := by
  intro combos
  induction combos with
  | nil => intro st hmax hcur; exact ⟨hmax, hcur⟩
  | cons combo rest ih =>
    intro st hmax hcur
    rw [List.foldl_cons]
    obtain ⟨hmax', hcur'⟩ := solve_combo_step_inv b size st combo hmax hcur
    exact ih _ hmax' hcur'

/-- One size-loop step keeps every tracked combination an output of
`calc_benefit`. -/
theorem solve_size_step_inv (b : Board) (st : SolveState) (size : Nat)
    (combos : List (List Cell)) (st' : SolveState)
    (h : b.solve_size_step st size combos = some st')
    (hmax : ∀ c ∈ st.max_benefit_combinations, ∃ r, c = (b.calc_benefit r).2)
    (hcur : ∀ c ∈ st.current_combinations, ∃ r, c = (b.calc_benefit r).2) :
    (∀ c ∈ st'.max_benefit_combinations, ∃ r, c = (b.calc_benefit r).2) ∧
    (∀ c ∈ st'.current_combinations, ∃ r, c = (b.calc_benefit r).2) := by
  obtain ⟨hmax1, hcur1⟩ := solve_combo_fold_inv b size combos st hmax hcur
  unfold Board.solve_size_step at h
  dsimp only at h
  cases hls : lookupSize
      (combos.foldl (fun s c => b.solve_combo_step size s c) st).map_size_benefit size with
  | none => rw [hls] at h; cases h
  | some benefit =>
    rw [hls] at h
    dsimp only at h
    split at h
    · split at h
      · cases Option.some.inj h
        exact ⟨hmax1, hcur1⟩
      · cases Option.some.inj h
        exact ⟨hmax1, hcur1⟩
    · split at h
      · cases Option.some.inj h
        refine ⟨fun c hc => ?_, hcur1⟩
        rcases List.mem_append.mp hc with hm | hm
        · exact hmax1 c hm
        · exact hcur1 c hm
      · cases Option.some.inj h
        exact ⟨hcur1, hcur1⟩

/-- The whole size loop keeps every tracked combination an output of
`calc_benefit`. -/
theorem solve_loop_inv (b : Board) :
    ∀ (sizes : List (Nat × List (List Cell))) (st st' : SolveState),
      b.solve_loop st sizes = some st' →
      (∀ c ∈ st.max_benefit_combinations, ∃ r, c = (b.calc_benefit r).2) →
      (∀ c ∈ st.current_combinations, ∃ r, c = (b.calc_benefit r).2) →
      (∀ c ∈ st'.max_benefit_combinations, ∃ r, c = (b.calc_benefit r).2) ∧
      (∀ c ∈ st'.current_combinations, ∃ r, c = (b.calc_benefit r).2) := by
  intro sizes
  induction sizes with
  | nil =>
    intro st st' h hmax hcur
    cases Option.some.inj h
    exact ⟨hmax, hcur⟩
  | cons p rest ih =>
    intro st st' h hmax hcur
    cases p with
    | mk size combos =>
      unfold Board.solve_loop at h
      split at h
      · cases Option.some.inj h
        exact ⟨hmax, hcur⟩
      · cases hstep : b.solve_size_step st size combos with
        | none => rw [hstep] at h; cases h
        | some st1 =>
          rw [hstep] at h
          obtain ⟨hmax1, hcur1⟩ := solve_size_step_inv b st size combos st1 hstep hmax hcur
          exact ih st1 st' h hmax1 hcur1

/-- Claim C1, amended — every combination in the result set `solve` returns
is an effective-removal set produced by `calc_benefit` on the same base board
for some candidate; re-evaluating the stored set itself need not reproduce
the reported best score (see the counterexample). -/
theorem solve_result_members (b : Board) (r : Int × List (List Cell))
    (h : b.solve = some r) :
    ∀ combo ∈ r.2, ∃ removing_cells, combo = (b.calc_benefit removing_cells).2 := by
  unfold Board.solve at h
  cases hl : b.solve_loop initSolveState b.solve_sizes with
  | none => rw [hl] at h; cases h
  | some st =>
    rw [hl] at h
    cases Option.some.inj h
    have hinv := solve_loop_inv b b.solve_sizes initSolveState st hl
      (fun c hc => absurd hc (List.not_mem_nil c))
      (fun c hc => absurd hc (List.not_mem_nil c))
    exact fun combo hc => hinv.1 combo hc

/-- Drop list of the claim C1 counterexample board (given to `from_input`,
then collapsed by `main` before `solve`). -/
def drops_c1 : List (Nat × Nat) :=
  [(1, 3), (1, 4), (1, 5), (1, 6), (2, 2), (2, 3), (2, 4), (2, 5), (2, 6),
   (3, 1), (3, 2), (3, 3), (3, 4), (3, 5), (3, 6), (4, 2), (4, 5), (5, 2),
   (5, 3), (5, 5), (5, 6), (6, 3), (6, 5), (6, 6), (7, 1), (7, 4), (7, 6)]

/-- Board for the claim C1 counterexample. -/
def board_c1 : Board :=
  (drops_c1.foldl (fun bd p => bd.drop_cell p.1 p.2)
    Board.new.gen_map_live_outer_cells).remove_redundant_blocks

/-- Counterexample to claim C1 as stated: on `board_c1`, `solve` reports best
score 5 with a single result combination (an effective removal set: four
border cells plus the candidate `(4,6)`), but re-evaluating that combination
through `calc_benefit` on the same base board yields 4, not 5. -/
theorem solve_result_reeval_mismatch :
    board_c1.solve =
      some (5, [[⟨7, 3⟩, ⟨7, 5⟩, ⟨6, 1⟩, ⟨7, 2⟩, ⟨4, 6⟩]]) ∧
    (board_c1.calc_benefit [⟨7, 3⟩, ⟨7, 5⟩, ⟨6, 1⟩, ⟨7, 2⟩, ⟨4, 6⟩]).1 = 4 ∧
    (4 : Int) ≠ 5 := by
  refine ⟨by decide, by decide, by decide⟩

/-- Witness for `solve_result_members` at `board_c1`. -/
theorem solve_result_members_witness :
    board_c1.solve = some (5, [[⟨7, 3⟩, ⟨7, 5⟩, ⟨6, 1⟩, ⟨7, 2⟩, ⟨4, 6⟩]]) ∧
    (∃ removing_cells, [(⟨7, 3⟩ : Cell), ⟨7, 5⟩, ⟨6, 1⟩, ⟨7, 2⟩, ⟨4, 6⟩] =
      (board_c1.calc_benefit removing_cells).2) :=
  ⟨by decide,
    solve_result_members board_c1 (5, [[⟨7, 3⟩, ⟨7, 5⟩, ⟨6, 1⟩, ⟨7, 2⟩, ⟨4, 6⟩]])
      (by decide) [⟨7, 3⟩, ⟨7, 5⟩, ⟨6, 1⟩, ⟨7, 2⟩, ⟨4, 6⟩] (by decide)⟩

/-! ## The search driver: the exceeds branch (claim C3) -/

/-- The inner combination loop never touches the global best, the countdown,
or the result set — it only updates the per-size map and the current
tracker. -/
theorem solve_combo_step_fields (b : Board) (size : Nat) (st : SolveState)
    (combination : List Cell) :
    (b.solve_combo_step size st combination).max_benefit = st.max_benefit ∧
    (b.solve_combo_step size st combination).countdown = st.countdown ∧
    (b.solve_combo_step size st combination).max_benefit_combinations =
      st.max_benefit_combinations := by
  unfold Board.solve_combo_step
  cases hls : lookupSize st.map_size_benefit size with
  | none => simp [hls]
  | some value =>
    simp only [hls]
    split
    · simp
    · split
      · simp
      · simp

/-- Field invariance extended over the whole combination fold. -/
theorem solve_combo_fold_fields (b : Board) (size : Nat) :
    ∀ (combos : List (List Cell)) (st : SolveState),
      (combos.foldl (fun s c => b.solve_combo_step size s c) st).max_benefit =
        st.max_benefit ∧
      (combos.foldl (fun s c => b.solve_combo_step size s c) st).countdown =
        st.countdown ∧
      (combos.foldl (fun s c => b.solve_combo_step size s c) st).max_benefit_combinations =
        st.max_benefit_combinations := by
  intro combos
  induction combos with
  | nil => intro st; exact ⟨rfl, rfl, rfl⟩
  | cons combo rest ih =>
    intro st
    rw [List.foldl_cons]
    obtain ⟨h1, h2, h3⟩ := solve_combo_step_fields b size st combo
    obtain ⟨g1, g2, g3⟩ := ih (b.solve_combo_step size st combo)
    exact ⟨by rw [g1, h1], by rw [g2, h2], by rw [g3, h3]⟩

/-- Claim C3, amended — when the best score of the current size strictly
exceeds the running global best, the size step updates the global best and
replaces the result set with the current tracker's contents, but leaves the
countdown counter unchanged (the code resets it to 2 only in the
equals-the-best branch). -/
theorem solve_size_step_exceed (b : Board) (st : SolveState) (size : Nat)
    (combos : List (List Cell)) (benefit : Int)
    (hb : lookupSize
        ((combos.foldl (fun s c => b.solve_combo_step size s c) st)).map_size_benefit
        size = some benefit)
    (hgt : st.max_benefit < benefit) :
    (combos.foldl (fun s c => b.solve_combo_step size s c) st).countdown =
      st.countdown ∧
    b.solve_size_step st size combos =
      some { (combos.foldl (fun s c => b.solve_combo_step size s c) st) with
              max_benefit := benefit,
              max_benefit_combinations :=
                (combos.foldl (fun s c =>
                  b.solve_combo_step size s c) st).current_combinations } := by
  obtain ⟨hmax1, hcd1, _⟩ := solve_combo_fold_fields b size combos st
  refine ⟨hcd1, ?_⟩
  unfold Board.solve_size_step
  dsimp only
  rw [hb]
  dsimp only
  rw [hmax1]
  have hne : ¬((benefit == st.max_benefit) = true) := by
    rw [beq_iff_eq]
    exact ne_of_gt hgt
  rw [if_neg (not_lt.mpr (le_of_lt hgt)), if_neg hne]

/-- Witness for `solve_size_step_exceed`: on `board_c1` the size-0 step (the
single empty combination, benefit 5) exceeds the initial global best 0. -/
theorem solve_size_step_exceed_witness :
    (lookupSize (([[]] : List (List Cell)).foldl
        (fun s c => board_c1.solve_combo_step 0 s c)
        initSolveState).map_size_benefit 0 = some 5) ∧
    initSolveState.max_benefit < 5 ∧
    (([[]] : List (List Cell)).foldl (fun s c => board_c1.solve_combo_step 0 s c)
        initSolveState).countdown = initSolveState.countdown :=
  ⟨by decide, by decide,
    (solve_size_step_exceed board_c1 initSolveState 0 [[]] 5 (by decide)
      (by decide)).1⟩

/-- A state whose countdown has reached zero passes through the rest of the
size loop unchanged (the break at the head of each iteration). -/
theorem solve_loop_countdown_zero (b : Board) (st : SolveState)
    (h : st.countdown = 0) :
    ∀ sizes, b.solve_loop st sizes = some st := by
  intro sizes
  cases sizes with
  | nil => rfl
  | cons p rest =>
    cases p with
    | mk size combos =>
      unfold Board.solve_loop
      simp [h]

/-- The size loop splits over list concatenation: running the loop over a
prefix and continuing from the resulting state is the same as one run (the
countdown break commutes with the split). -/
theorem solve_loop_append (b : Board) :
    ∀ (l1 l2 : List (Nat × List (List Cell))) (st : SolveState),
      b.solve_loop st (l1 ++ l2) =
        (b.solve_loop st l1).bind (fun st' => b.solve_loop st' l2) := by
  intro l1
  induction l1 with
  | nil => intro l2 st; rfl
  | cons p rest ih =>
    intro l2 st
    cases p with
    | mk size combos =>
      rw [List.cons_append]
      by_cases hcd : st.countdown = 0
      · rw [solve_loop_countdown_zero b st hcd, solve_loop_countdown_zero b st hcd]
        exact (solve_loop_countdown_zero b st hcd l2).symm
      · have huf : b.solve_loop st (((size, combos) :: rest) ++ l2) =
            if (st.countdown == 0) = true then some st
            else match b.solve_size_step st size combos with
              | none => none
              | some st1 => b.solve_loop st1 (rest ++ l2) := rfl
        have hex : b.solve_loop st ((size, combos) :: rest) =
            if (st.countdown == 0) = true then some st
            else match b.solve_size_step st size combos with
              | none => none
              | some st1 => b.solve_loop st1 rest := rfl
        rw [List.cons_append] at huf
        rw [huf, hex, if_neg (by simpa using hcd), if_neg (by simpa using hcd)]
        cases hstep : b.solve_size_step st size combos with
        | none => rfl
        | some st1 => exact ih l2 st1

/-- Drop list of the claim C3 counterexample board. -/
def drops_c3 : List (Nat × Nat) :=
  [(2, 6), (3, 3), (3, 4), (4, 3), (4, 5), (4, 6), (5, 4), (5, 5), (5, 6),
   (6, 3), (6, 4), (6, 5), (6, 6)]

/-- Board for the claim C3 counterexample. -/
def board_c3 : Board :=
  (drops_c3.foldl (fun bd p => bd.drop_cell p.1 p.2)
    Board.new.gen_map_live_outer_cells).remove_redundant_blocks

/-- Counterexample to claim C3 as stated: running `solve`'s size loop on
`board_c3` through sizes 0, 1 and 2 reaches the state (global best 7,
countdown 1 — size 2 decremented it); the size-3 step then records best 8,
which strictly exceeds the global best, updates it to 8 — and leaves the
countdown at 1 instead of resetting it to 2.  The last conjunct ties the
prefix to the actual `solve` run via `solve_loop_append`. -/
theorem solve_exceed_without_countdown_reset :
    (board_c3.solve_loop initSolveState (board_c3.solve_sizes.take 3)).map
        (fun st => (st.max_benefit, st.countdown,
          (board_c3.solve_size_step st 3
              (combinations 3 board_c3.get_available_blocks)).map
            (fun st' => (st'.max_benefit, st'.countdown)))) =
      some (7, 1, some (8, 1)) ∧
    board_c3.solve_sizes.map Prod.fst = [0, 1, 2, 3, 4, 5, 6, 7, 8, 9, 10] ∧
    (board_c3.solve_sizes.getD 3 (0, [])).2 =
      combinations 3 board_c3.get_available_blocks ∧
    board_c3.solve =
      ((board_c3.solve_loop initSolveState (board_c3.solve_sizes.take 3)).bind
        (fun st => board_c3.solve_loop st (board_c3.solve_sizes.drop 3))).map
        (fun st => (st.max_benefit, st.max_benefit_combinations)) := by
  refine ⟨by decide, by decide, rfl, ?_⟩
  unfold Board.solve
  rw [← solve_loop_append, List.take_append_drop]

end MimicCapture
